import Mathlib

/-!
Verification of the ESP32 web-server firmware (`ETH_WebServer_WebOTA.ino`,
V4.0): DST/epoch engine, session manager, NVS key-value store facade,
login handling and routing, and the OTA multipart boundary extractor.
Each definition is a shallow embedding of the corresponding C++ function;
`ref…` definitions are independent reference functions used to state
refinement/agreement properties.
-/

/- ==================== DST / Epoch engine ==================== -/

/-- Leap-year test as written inside `syncTimeViaHTTP`:
`y % 4 == 0 && (y % 100 != 0 || y % 400 == 0)`. -/
def isLeapC (y : Nat) : Bool :=
  y % 4 == 0 && (y % 100 != 0 || y % 400 == 0)

/-- The 12-entry days-in-month table `{31, 28, ...}` with February adjusted
for leap years (`if (isLeap) daysInMonth[1] = 29`). -/
def daysInMonthT (leap : Bool) : List Nat :=
  [31, if leap then 29 else 28, 31, 30, 31, 30, 31, 31, 30, 31, 30, 31]

/-- The year loop of `syncTimeViaHTTP`:
`for (int y = 1970; y < year; y++) days += leap ? 366 : 365`. -/
def yearDaysFold (year : Nat) : Nat :=
  (List.range' 1970 (year - 1970)).foldl
    (fun acc y => acc + (if isLeapC y then 366 else 365)) 0

/-- The month loop of `syncTimeViaHTTP`:
`for (int m = 1; m < month; m++) days += daysInMonth[m - 1]`. -/
def monthDaysFold (leap : Bool) (month : Nat) : Nat :=
  ((daysInMonthT leap).take (month - 1)).foldl (· + ·) 0

/-- Reduction into the 32-bit signed two's-complement range, as the
ESP32-S3's `long`/`time_t` arithmetic wraps (ILP32: both are 32 bits). -/
def wrap32 (x : Int) : Int :=
  (x + 2147483648) % 4294967296 - 2147483648

/-- The GMT epoch computation inlined in `syncTimeViaHTTP` (lines 279-297):
day-count accumulation, then `days * 86400L + hour*3600L + min*60L + sec`
evaluated in the 32-bit signed `long`/`time_t` arithmetic of the target.
Two's-complement addition and multiplication are arithmetic mod `2^32`, so
wrapping the exact value once at the end equals wrapping after every
operation. -/
def epochFromFields (year month day hour minute sec : Nat) : Int :=
  let days := yearDaysFold year + monthDaysFold (isLeapC year) month + (day - 1)
  wrap32 (days * 86400 + hour * 3600 + minute * 60 + sec)

/-- The Zeller-like day-of-week-of-the-first-of-month formula of `isDST`
(`dayOfWeek1st`), Sunday = 0. -/
def dayOfWeekFirst (year month : Nat) : Nat :=
  let a := (14 - month) / 12
  let y := year - a
  let m := month + 12 * a - 2
  (1 + y + y / 4 - y / 100 + y / 400 + (31 * m) / 12) % 7

/-- `lastSunday = 31 - ((dayOfWeek1st + 30) % 7)` from `isDST`. -/
def lastSundayF (year month : Nat) : Nat :=
  31 - ((dayOfWeekFirst year month + 30) % 7)

/-- `isDST(year, month, day, hour)`: Central European DST rules as coded. -/
def isDST (year month day hour : Nat) : Bool :=
  if month < 3 || month > 10 then false
  else if month > 3 && month < 10 then true
  else if month == 3 then
    if day < lastSundayF year month then false
    else if day > lastSundayF year month then true
    else if hour < 2 then false
    else true
  else
    if day < lastSundayF year month then true
    else if day > lastSundayF year month then false
    else if hour < 3 then true
    else false

/-- The local-epoch installation of `syncTimeViaHTTP` (lines 299-305): DST
membership from the GMT calendar fields, then
`italianEpoch = gmtEpoch + offsetHours * 3600` with
`offsetHours = inDST ? 2 : 1`, again in 32-bit `time_t` arithmetic; the
result is what `settimeofday` installs. -/
def syncInstalledEpoch (year month day hour minute sec : Nat) : Int :=
  let gmtEpoch := epochFromFields year month day hour minute sec
  let inDST := isDST year month day hour
  let offsetHours : Int := if inDST then 2 else 1
  wrap32 (gmtEpoch + offsetHours * 3600)

/- Reference calendar functions (independent closed forms). -/

/-- Reference leap-year predicate, standard formulation. -/
def refIsLeap (y : Nat) : Bool :=
  decide ((y % 4 = 0 ∧ y % 100 ≠ 0) ∨ y % 400 = 0)

/-- Reference cumulative days before month `m` in a non-leap year. -/
def refCumMonth (m : Nat) : Nat :=
  [0, 31, 59, 90, 120, 151, 181, 212, 243, 273, 304, 334].getD (m - 1) 0

/-- Reference count of leap years in `[1970, y)` in closed form
(`477 = 1969/4 - 1969/100 + 1969/400`). -/
def refLeapDays (y : Nat) : Nat :=
  (y - 1) / 4 - (y - 1) / 100 + (y - 1) / 400 - 477

/-- Reference day count from 1970-01-01 to the civil date `y-m-d`. -/
def refDays (y m d : Nat) : Nat :=
  365 * (y - 1970) + refLeapDays y + refCumMonth m
    + (if refIsLeap y ∧ 3 ≤ m then 1 else 0) + (d - 1)

/-- Reference calendar-to-epoch conversion (closed form, no loops). -/
def refEpoch (y m d h mi s : Nat) : Nat :=
  refDays y m d * 86400 + h * 3600 + mi * 60 + s

/-- Reference day of week of a civil date, Sunday = 0
(1970-01-01 was a Thursday, hence the `+ 4`). -/
def dowCivil (y m d : Nat) : Nat :=
  (refDays y m d + 4) % 7

/-- `lastSundayF y m` really is the last Sunday of month `m` of year `y`:
it is a Sunday, lies in the month, and no later day of the month is a
Sunday. -/
def lastSundayActualOK (y m : Nat) : Prop :=
  dowCivil y m (lastSundayF y m) = 0 ∧ 1 ≤ lastSundayF y m ∧ lastSundayF y m ≤ 31 ∧
    ∀ d, d ≤ 31 → lastSundayF y m < d → dowCivil y m d ≠ 0

/-- Reference year extraction for epoch decomposition: starting from 1970,
subtract whole years while they fit (fuel-based for kernel reduction). -/
def findYearAux : Nat → Nat → Nat → Nat × Nat
  | 0, y, d => (y, d)
  | fuel + 1, y, d =>
    let len := if refIsLeap y then 366 else 365
    if d < len then (y, d) else findYearAux fuel (y + 1) (d - len)

/-- Reference month extraction for epoch decomposition. -/
def findMonthAux : List Nat → Nat → Nat → Nat × Nat
  | [], m, d => (m, d)
  | len :: rest, m, d =>
    if d < len then (m, d) else findMonthAux rest (m + 1) (d - len)

/-- Reference epoch-decomposition function: splits an epoch second count
into `(year, month, day, hour, minute, second)`. -/
def refDecompose (e : Nat) : Nat × Nat × Nat × Nat × Nat × Nat :=
  let days := e / 86400
  let yd := findYearAux (days + 1) 1970 days
  let md := findMonthAux (daysInMonthT (refIsLeap yd.1)) 1 yd.2
  (yd.1, md.1, md.2 + 1, e % 86400 / 3600, e % 3600 / 60, e % 60)

/-- One date in each month of the leap year 2024 and the non-leap year 2023,
used for the round-trip checks. -/
def rtDates : List (Nat × Nat × Nat) :=
  [(2023, 1, 15), (2023, 2, 15), (2023, 3, 15), (2023, 4, 15), (2023, 5, 15),
   (2023, 6, 15), (2023, 7, 15), (2023, 8, 15), (2023, 9, 15), (2023, 10, 15),
   (2023, 11, 15), (2023, 12, 15), (2024, 1, 15), (2024, 2, 15), (2024, 3, 15),
   (2024, 4, 15), (2024, 5, 15), (2024, 6, 15), (2024, 7, 15), (2024, 8, 15),
   (2024, 9, 15), (2024, 10, 15), (2024, 11, 15), (2024, 12, 15)]

/-- The round-trip property for one date at time 09:30:45 (all test dates
lie below the 2038 wrap, so `toNat` is exact). -/
def rtOK (t : Nat × Nat × Nat) : Bool :=
  decide (refDecompose (epochFromFields t.1 t.2.1 t.2.2 9 30 45).toNat
    = (t.1, t.2.1, t.2.2, 9, 30, 45))

/- ==================== Session manager ==================== -/

/-- The `Session` struct: `{sessionId, lastActivity, isAuthenticated}`. -/
structure Session where
  sessionId : String
  lastActivity : Nat
  isAuthenticated : Bool
deriving DecidableEq, Repr

/-- `SESSION_TIMEOUT`: 1 hour in milliseconds. -/
def SESSION_TIMEOUT : Nat := 3600000

/-- 32-bit unsigned subtraction, as `now - currentSession.lastActivity`
computes on `unsigned long` (32 bits on the ESP32-S3). -/
def usub32 (a b : Nat) : Nat :=
  (a % 4294967296 + (4294967296 - b % 4294967296)) % 4294967296

/-- `isSessionValid(sessionId)`: result and updated session state. Empty or
mismatched token, unauthenticated session, or idle timeout give `false`
(timeout also clears `isAuthenticated`); success refreshes `lastActivity`
to `now` (the current `millis()`). -/
def isSessionValidM (s : Session) (now : Nat) (sid : String) : Bool × Session :=
  if sid = "" then (false, s)
  else if sid ≠ s.sessionId then (false, s)
  else if ¬ s.isAuthenticated then (false, s)
  else if SESSION_TIMEOUT < usub32 now s.lastActivity then
    (false, { s with isAuthenticated := false })
  else (true, { s with lastActivity := now })

/-- `createSession()`: fresh token, activity stamped `now`, authenticated. -/
def createSession (token : String) (now : Nat) : Session :=
  { sessionId := token, lastActivity := now, isAuthenticated := true }

/-- `destroySession()`: clears the token and the authenticated flag. -/
def destroySession (s : Session) : Session :=
  { s with sessionId := "", isAuthenticated := false }

/- ==================== Key-value store facade ==================== -/

/-- The NVS keyspace `k0..k99` as a 100-slot list: slot `i` holds the value
stored under key `k<i>`, or `none` when `prefs.isKey` is false. -/
def Store := List (Option String)

/-- The store with no keys present. -/
def emptyStore : Store := List.replicate 100 none

/-- The scan `for (int i = 0; i < MAX_KEYS; i++) if (!prefs.isKey(key))`:
index of the first unoccupied slot, counting from `k`. -/
def findFreeAux : List (Option String) → Nat → Option Nat
  | [], _ => none
  | none :: _, i => some i
  | some _ :: rest, i => findFreeAux rest (i + 1)

/-- Lowest free index of the store, as `handleAPIAddKey`/`handleAPIInsert`
compute it. -/
def findFreeIndex (s : Store) : Option Nat :=
  findFreeAux s 0

/-- Outcome of an add operation. -/
inductive AddResult where
  | ok (key : String)
  | capacityExceeded
  | invalidValue
deriving DecidableEq, Repr

/-- The add operation shared by `handleAPIAddKey` and `handleAPIInsert`:
reject empty / over-length values, else persist at the lowest free index
`i` under key `k<i>`; when no slot is free report the capacity error and
leave the store unchanged. -/
def addValue (s : Store) (v : String) : Store × AddResult :=
  if v = "" then (s, .invalidValue)
  else if 128 < v.length then (s, .invalidValue)
  else
    match findFreeIndex s with
    | none => (s, .capacityExceeded)
    | some i => (List.set s i (some v), .ok ("k" ++ Nat.repr i))

/-- Iterated adds (each request handled to completion before the next). -/
def addAll (s : Store) : List String → Store × List AddResult
  | [] => (s, [])
  | v :: vs =>
    let r := addValue s v
    let rest := addAll r.1 vs
    (rest.1, r.2 :: rest.2)

/-- The scan of `handleAPIRemove`: first occupied slot whose stored value
equals the search value, counting from `k`. -/
def findValAux (v : String) : List (Option String) → Nat → Option Nat
  | [], _ => none
  | o :: rest, i => if o = some v then some i else findValAux v rest (i + 1)

/-- Outcome of remove-by-value. -/
inductive RemoveResult where
  | removed (key : String)
  | notFound
  | emptyValue
deriving DecidableEq, Repr

/-- `handleAPIRemove`'s core: reject an empty search value; else delete the
lowest-indexed occupied slot holding the value and report its key, or
report not-found leaving the store unchanged. -/
def removeByValue (s : Store) (v : String) : Store × RemoveResult :=
  if v = "" then (s, .emptyValue)
  else
    match findValAux v s 0 with
    | none => (s, .notFound)
    | some i => (List.set s i none, .removed ("k" ++ Nat.repr i))

/-- A value `handleAPIAddKey` accepts: non-empty and at most
`MAX_VALUE_LENGTH = 128` characters. -/
def validValue (v : String) : Prop :=
  v ≠ "" ∧ v.length ≤ 128

/-- Slots `0..n-1` occupied, slots `n..99` free, store of the full keyspace
size. -/
def prefixOcc (s : Store) (n : Nat) : Prop :=
  List.length s = 100 ∧ (∀ i, i < n → (List.getD s i none).isSome = true) ∧
    ∀ i, i < 100 → n ≤ i → List.getD s i none = none

/- ==================== Login handler and routing ==================== -/

/-- `ADMIN_PASSWORD` from the configuration block. -/
def ADMIN_PASSWORD : String := "admin123"

/-- A string as the byte sequence the firmware sees on the wire. -/
def strBytes (s : String) : List Nat :=
  s.data.map Char.toNat

/-- Generic first-occurrence prefix test over byte lists
(Arduino `String::startsWith`). -/
def isPrefixL : List Nat → List Nat → Bool
  | [], _ => true
  | _ :: _, [] => false
  | a :: as, b :: bs => a == b && isPrefixL as bs

/-- `String::indexOf` over byte lists: position of the first occurrence of
`pat`, or `none`. -/
def listFind (pat : List Nat) : List Nat → Option Nat
  | [] => if isPrefixL pat [] then some 0 else none
  | b :: rest =>
    if isPrefixL pat (b :: rest) then some 0
    else (listFind pat rest).map (· + 1)

/-- Value of one hex digit as `strtol` reads it; `none` stops the parse. -/
def hexDigit (b : Nat) : Option Nat :=
  if 48 ≤ b ∧ b ≤ 57 then some (b - 48)
  else if 97 ≤ b ∧ b ≤ 102 then some (b - 87)
  else if 65 ≤ b ∧ b ≤ 70 then some (b - 55)
  else none

/-- `strtol(hex, NULL, 16)` on the two-character buffer of `urlDecode`. -/
def hexPairVal (h1 h2 : Nat) : Nat :=
  match hexDigit h1 with
  | none => 0
  | some v1 =>
    match hexDigit h2 with
    | none => v1
    | some v2 => 16 * v1 + v2

/-- `urlDecode`: `+` to space; `%` followed by two more characters consumes
them as hex; a `%` with fewer than two characters after it is dropped. -/
def urlDecodeB : List Nat → List Nat
  | [] => []
  | 43 :: rest => 32 :: urlDecodeB rest
  | 37 :: h1 :: h2 :: rest => hexPairVal h1 h2 :: urlDecodeB rest
  | 37 :: rest => urlDecodeB rest
  | b :: rest => b :: urlDecodeB rest

/-- The password `handleLogin` extracts from a request body: everything
after the first `password=`, url-decoded; `none` when the marker is
absent. -/
def loginPassword (body : List Nat) : Option (List Nat) :=
  (listFind (strBytes "password=") body).map
    fun p => urlDecodeB (List.drop (p + 9) body)

/-- The redirect `handleLogin` sends on a failed login. -/
def errorRedirectLines : List String :=
  ["HTTP/1.1 302 Found", "Location: /?error=1", "Connection: close", ""]

/-- The response `handleLogin` sends on a successful login: redirect to `/`
with the session cookie. -/
def successLoginLines (token : String) : List String :=
  ["HTTP/1.1 302 Found", "Location: /",
   "Set-Cookie: sessionId=" ++ token ++ "; Path=/; HttpOnly; Max-Age=3600",
   "Connection: close", ""]

/-- `handleLogin(client, contentLength)`: returns the response lines, the
session state after the call, and the unread remainder of the input.
`token` is the random token `generateSessionId` would produce and `now` the
current `millis()`. -/
def handleLogin (contentLength : Int) (input : List Nat) (sess : Session)
    (token : String) (now : Nat) : List String × Session × List Nat :=
  if contentLength ≤ 0 ∨ 256 < contentLength then (errorRedirectLines, sess, input)
  else
    let body := List.take contentLength.toNat input
    let rest := List.drop contentLength.toNat input
    match loginPassword body with
    | none => (errorRedirectLines, sess, rest)
    | some pwd =>
      if pwd = strBytes ADMIN_PASSWORD then
        (successLoginLines token, createSession token now, rest)
      else (errorRedirectLines, sess, rest)

/-- The response of `serveUnauthorized` (one entry per `println`). -/
def unauthorizedLines : List String :=
  ["HTTP/1.1 401 Unauthorized", "Content-Type: text/html", "Connection: close", "",
   "<html><body style='font-family: Arial; text-align: center; padding: 50px;'>",
   "<h2 style='color: #dc3545;'>🔒 Unauthorized</h2>",
   "<p>Your session has expired or is invalid.</p>",
   "<a href='/' style='color: #667eea; text-decoration: none; font-weight: 600;'>← Login Again</a>",
   "</body></html>"]

/-- The `POST /doupdate` dispatch of `loop` (lines 505-510): a valid session
enters `handleOTAUpload` (abstracted as `ota`, which consumes body bytes);
an invalid one gets `serveUnauthorized`, which writes the 401 response and
reads nothing. Returns response lines, session state, and the unread
remainder of the request body. -/
def postDoupdate (ota : List Nat → List String × List Nat) (sess : Session)
    (now : Nat) (sid : String) (input : List Nat) :
    List String × Session × List Nat :=
  let r := isSessionValidM sess now sid
  if r.1 then
    let o := ota input
    (o.1, r.2, o.2)
  else (unauthorizedLines, r.2, input)

/- ==================== OTA multipart boundary extractor ==================== -/

/-- `WIN_SIZE`: the sliding window holds at most 128 bytes. -/
def WIN_SIZE : Nat := 128

/-- One byte entering the window: when full, the oldest byte is discarded
(`memmove(window, window + 1, WIN_SIZE - 1)`), then the byte is appended. -/
def pushWindow (w : List Nat) (b : Nat) : List Nat :=
  (if List.length w = WIN_SIZE then List.drop 1 w else w) ++ [b]

/-- The rolling comparison: the window holds at least as many bytes as the
marker and its trailing bytes equal the marker. -/
def windowMatches (marker w : List Nat) : Bool :=
  decide (List.length marker ≤ List.length w) &&
    List.drop (List.length w - List.length marker) w == marker

/-- The per-chunk byte loop of `handleOTAUpload`: feed bytes into the window
until the marker matches; returns the match index (the `i` of the source)
if any, and the final window. -/
def findMatch (marker : List Nat) : List Nat → List Nat → Nat → Option Nat × List Nat
  | w, [], _ => (none, w)
  | w, b :: rest, i =>
    let w2 := pushWindow w b
    if windowMatches marker w2 then (some i, w2)
    else findMatch marker w2 rest (i + 1)

/-- `fileBytesToWrite` after the clamp: from the match at chunk index `i`,
`boundaryStartInWin = winLen - markerLen`,
`fileTotal = (written + i + 1) - (winLen - boundaryStartInWin)` (`size_t`),
the signed difference `fileTotal - written` (`int`), clamped into
`[0, len]`. -/
def fileBytesClamped (len written i winLen markerLen : Nat) : Int :=
  let boundaryStartInWin := winLen - markerLen
  let totalReceived := written + i + 1
  let fileTotal : Nat := totalReceived - (winLen - boundaryStartInWin)
  let fbw : Int := (fileTotal : Int) - (written : Int)
  let fbw := if fbw < 0 then 0 else fbw
  if (len : Int) < fbw then (len : Int) else fbw

/-- The chunked payload loop of `handleOTAUpload` (lines 1046-1101): the
log of byte blocks passed to `Update.write`, given the marker
(`"\r\n" + boundary`), the running `written` count, the current window, and
the incoming chunks (each one `client.read` result; a read of no bytes ends
the loop). A chunk with no match is written whole; on a match the clamped
slice of the chunk is written and extraction stops. -/
def runOTA (marker : List Nat) : Nat → List Nat → List (List Nat) → List (List Nat)
  | _, _, [] => []
  | written, w, chunk :: rest =>
    if chunk = [] then []
    else
      match findMatch marker w chunk 0 with
      | (none, w2) => chunk :: runOTA marker (written + List.length chunk) w2 rest
      | (some i, w2) =>
        let fbw := fileBytesClamped (List.length chunk) written i (List.length w2)
          (List.length marker)
        if 0 < fbw then [List.take fbw.toNat chunk] else []

/-- Reference extractor: buffer the whole body, find the first occurrence of
the closing marker, and keep exactly the bytes before it. -/
def refPayload (marker stream : List Nat) : Option (List Nat) :=
  (listFind marker stream).map fun p => List.take p stream

/-- The marker of the counterexample stream: `"\r\n--b"` for boundary
`--b`. -/
def exMarker : List Nat := [13, 10, 45, 45, 98]

/-- First chunk of the counterexample stream: 1020 payload bytes (`'A'`)
followed by the first four marker bytes — a 1024-byte chunk that ends
mid-marker. -/
def exChunk1 : List Nat := List.replicate 1020 65 ++ [13, 10, 45, 45]

/-- Second chunk: the rest of the marker. -/
def exChunk2 : List Nat := [98]

/- ==================== Calendar helper lemmas ==================== -/

set_option maxHeartbeats 1000000

/-- The source's leap test and the reference one agree. -/
theorem refIsLeap_eq_isLeapC (y : Nat) : refIsLeap y = isLeapC y := by
  simp only [refIsLeap, isLeapC]
  cases h4 : y % 4 == 0 <;> cases h100 : y % 100 != 0 <;> cases h400 : y % 400 == 0 <;>
    simp_all <;> omega

/-- One-year step of the closed-form leap count. -/
theorem refLeapDays_succ (y : Nat) (hy : 1970 ≤ y) :
    refLeapDays (y + 1) = refLeapDays y + (if isLeapC y then 1 else 0) := by
  have h : (isLeapC y = true) ↔ (y % 4 = 0 ∧ (y % 100 ≠ 0 ∨ y % 400 = 0)) := by
    simp [isLeapC]
  by_cases hb : isLeapC y = true
  · rw [if_pos hb]
    have hf := h.mp hb
    simp only [refLeapDays]
    omega
  · rw [if_neg hb]
    have hf : ¬ (y % 4 = 0 ∧ (y % 100 ≠ 0 ∨ y % 400 = 0)) := fun hh => hb (h.mpr hh)
    simp only [refLeapDays]
    omega

/-- The year loop of the source equals the closed form. -/
theorem yearDaysFold_eq (n : Nat) :
    yearDaysFold (1970 + n) = 365 * n + refLeapDays (1970 + n) := by
  induction n with
  | zero => norm_num [yearDaysFold, refLeapDays]
  | succ k ih =>
    have hr : List.range' 1970 (k + 1) = List.range' 1970 k ++ [1970 + k] := by
      simpa using @List.range'_concat 1 1970 k
    have h1 : yearDaysFold (1970 + (k + 1))
        = yearDaysFold (1970 + k) + (if isLeapC (1970 + k) then 366 else 365) := by
      simp only [yearDaysFold, Nat.add_sub_cancel_left, hr, List.foldl_append]
      simp
    rw [h1, ih, show 1970 + (k + 1) = 1970 + k + 1 from rfl,
      refLeapDays_succ (1970 + k) (by omega)]
    by_cases hb : isLeapC (1970 + k) = true <;> simp [hb] <;> ring

/-- The month loop of the source equals the cumulative table plus the leap
correction. -/
theorem monthDaysFold_eq (leap : Bool) (m : Nat) (h1 : 1 ≤ m) (h2 : m ≤ 12) :
    monthDaysFold leap m = refCumMonth m + (if leap = true ∧ 3 ≤ m then 1 else 0) := by
  interval_cases m <;> cases leap <;> decide

/-- The exact (unwrapped) value of the source's epoch sum equals the
reference closed-form calendar-to-epoch function. -/
theorem epochSum_eq (y m d h mi s : Nat) (hy : 1970 ≤ y)
    (hm1 : 1 ≤ m) (hm2 : m ≤ 12) :
    (yearDaysFold y + monthDaysFold (isLeapC y) m + (d - 1)) * 86400
      + h * 3600 + mi * 60 + s = refEpoch y m d h mi s := by
  obtain ⟨n, rfl⟩ : ∃ n, y = 1970 + n := ⟨y - 1970, by omega⟩
  simp only [refEpoch, refDays]
  rw [yearDaysFold_eq, monthDaysFold_eq _ _ hm1 hm2, refIsLeap_eq_isLeapC]
  ring_nf
  omega

/-- `wrap32` is the identity on the representable range `[0, 2^31)`. -/
theorem wrap32_eq_self (x : Int) (h0 : 0 ≤ x) (h1 : x < 2147483648) :
    wrap32 x = x := by
  simp only [wrap32]
  omega

/-- The epoch computation of `syncTimeViaHTTP` agrees with the reference
closed-form calendar-to-epoch function whenever the epoch is representable
in the 32-bit signed `time_t` (dates up to 2038-01-19 03:14:07 GMT). -/
theorem epochFromFields_eq (y m d h mi s : Nat) (hy : 1970 ≤ y)
    (hm1 : 1 ≤ m) (hm2 : m ≤ 12) (hfit : refEpoch y m d h mi s < 2147483648) :
    epochFromFields y m d h mi s = (refEpoch y m d h mi s : Int) := by
  have hsum := epochSum_eq y m d h mi s hy hm1 hm2
  simp only [epochFromFields, wrap32]
  omega

/-- At 2038-01-19 03:14:08 GMT the 32-bit computation wraps: the code
installs the most negative `time_t`, not the exact epoch `2^31`. -/
theorem epochFromFields_wraps_at_y2038 :
    epochFromFields 2038 1 19 3 14 8 = -2147483648 := by decide

/- ==================== Claim C5 ==================== -/

/-- C5: the epoch computation inside `syncTimeViaHTTP` agrees with the
reference calendar-to-epoch function on every valid GMT calendar tuple
whose epoch is representable in the device's 32-bit signed `time_t`
(beyond 2038-01-19 03:14:07 GMT the `long` arithmetic wraps, see
`epochFromFields_wraps_at_y2038`); it maps 2024-03-01T00:00:00Z to
1709251200; and it round-trips with the reference epoch-decomposition
function on one date in each month of 2024 and of 2023. -/
theorem epoch_loop_agrees_reference :
    (∀ y m d h mi s, 1970 ≤ y → 1 ≤ m → m ≤ 12 → 1 ≤ d → d ≤ 31 →
      h ≤ 23 → mi ≤ 59 → s ≤ 59 → refEpoch y m d h mi s < 2147483648 →
      epochFromFields y m d h mi s = (refEpoch y m d h mi s : Int)) ∧
    epochFromFields 2024 3 1 0 0 0 = 1709251200 ∧
    rtDates.all rtOK = true := by
  refine ⟨fun y m d h mi s hy hm1 hm2 _ _ _ _ _ hfit =>
    epochFromFields_eq y m d h mi s hy hm1 hm2 hfit, by decide, by decide⟩

/-- Witness for C5 at 2024-03-01T00:00:00Z. -/
theorem epoch_loop_agrees_reference_witness :
    epochFromFields 2024 3 1 0 0 0 = (refEpoch 2024 3 1 0 0 0 : Int) :=
  epoch_loop_agrees_reference.1 2024 3 1 0 0 0 (by decide) (by decide) (by decide)
    (by decide) (by decide) (by decide) (by decide) (by decide) (by decide)

/- ==================== Claim C3 ==================== -/

/-- C3: time synchronization applies `isDST` to the GMT (unshifted)
calendar fields and installs `gmtEpoch + 3600 * (isDST ? 2 : 1)` as the
device wall clock, for every parsed GMT tuple whose shifted epoch is still
representable in the 32-bit signed `time_t` (past the 2038 wrap the device
installs the wrapped value instead). -/
theorem sync_installs_gmt_plus_offset (y m d h mi s : Nat) (hy : 1970 ≤ y)
    (hm1 : 1 ≤ m) (hm2 : m ≤ 12)
    (hfit : refEpoch y m d h mi s + 7200 < 2147483648) :
    syncInstalledEpoch y m d h mi s
      = (refEpoch y m d h mi s : Int)
        + 3600 * (if isDST y m d h then 2 else 1) := by
  simp only [syncInstalledEpoch]
  rw [epochFromFields_eq y m d h mi s hy hm1 hm2 (by omega)]
  by_cases hb : isDST y m d h = true
  · rw [if_pos hb]
    simp only [wrap32]
    omega
  · rw [if_neg hb]
    simp only [wrap32]
    omega

/-- Witness for C3: 2024-07-15T12:00:00 GMT is in DST, offset +2h. -/
theorem sync_installs_gmt_plus_offset_witness :
    syncInstalledEpoch 2024 7 15 12 0 0
      = (refEpoch 2024 7 15 12 0 0 : Int)
        + 3600 * (if isDST 2024 7 15 12 then 2 else 1) :=
  sync_installs_gmt_plus_offset 2024 7 15 12 0 0 (by decide) (by decide) (by decide)
    (by decide)

/- ==================== Claim C7 ==================== -/

/-- C7: `isSessionValid` returns false on an empty token, a mismatched
token, an unauthenticated session, or when the idle time since the last
activity exceeds the 1-hour timeout (clearing `isAuthenticated` in that
case); otherwise it returns true and refreshes the activity timestamp.
After `destroySession`, it returns false for every token. -/
theorem session_validate_spec :
    (∀ s now, isSessionValidM s now "" = (false, s)) ∧
    (∀ s now t, t ≠ "" → t ≠ s.sessionId → isSessionValidM s now t = (false, s)) ∧
    (∀ s now t, t ≠ "" → t = s.sessionId → s.isAuthenticated = false →
      isSessionValidM s now t = (false, s)) ∧
    (∀ s now t, t ≠ "" → t = s.sessionId → s.isAuthenticated = true →
      SESSION_TIMEOUT < usub32 now s.lastActivity →
      isSessionValidM s now t = (false, { s with isAuthenticated := false })) ∧
    (∀ s now t, t ≠ "" → t = s.sessionId → s.isAuthenticated = true →
      usub32 now s.lastActivity ≤ SESSION_TIMEOUT →
      isSessionValidM s now t = (true, { s with lastActivity := now })) ∧
    (∀ s now t, (isSessionValidM (destroySession s) now t).1 = false) := by
  refine ⟨?_, ?_, ?_, ?_, ?_, ?_⟩
  · intro s now; simp [isSessionValidM]
  · intro s now t h1 h2; simp [isSessionValidM, h1, h2]
  · intro s now t h1 h2 h3; subst h2; simp [isSessionValidM, h1, h3]
  · intro s now t h1 h2 h3 h4; subst h2; simp [isSessionValidM, h1, h3, h4]
  · intro s now t h1 h2 h3 h4
    subst h2
    simp [isSessionValidM, h1, h3, Nat.not_lt.mpr h4]
  · intro s now t
    by_cases h : t = ""
    · simp [isSessionValidM, destroySession, h]
    · simp [isSessionValidM, destroySession, h]

/-- Witness for C7: a destroyed session rejects a non-empty token. -/
theorem session_validate_spec_witness :
    (isSessionValidM (destroySession ⟨"abc", 5, true⟩) 10 "abc").1 = false :=
  session_validate_spec.2.2.2.2.2 ⟨"abc", 5, true⟩ 10 "abc"

/- ==================== Store helper lemmas ==================== -/

/-- Writing a slot then reading it back. -/
theorem getD_set_self {α : Type} (d a : α) :
    ∀ (l : List α) (i : Nat), i < List.length l → List.getD (List.set l i a) i d = a := by
  intro l
  induction l with
  | nil => intro i h; simp at h
  | cons x xs ih =>
    intro i h
    cases i with
    | zero => simp
    | succ j => simpa using ih j (by simpa using h)

/-- Writing a slot leaves every other slot unchanged. -/
theorem getD_set_ne {α : Type} (d a : α) :
    ∀ (l : List α) (i j : Nat), i ≠ j →
      List.getD (List.set l i a) j d = List.getD l j d := by
  intro l
  induction l with
  | nil => intro i j _; simp
  | cons x xs ih =>
    intro i j hne
    cases i with
    | zero =>
      cases j with
      | zero => exact absurd rfl hne
      | succ k => simp
    | succ i2 =>
      cases j with
      | zero => simp
      | succ k => simpa using ih i2 k (by omega)

/-- `findFreeAux` finds the first free slot. -/
theorem findFreeAux_spec :
    ∀ (l : List (Option String)) (n k : Nat),
      (∀ j, j < n → (List.getD l j none).isSome = true) →
      List.getD l n none = none → n < List.length l →
      findFreeAux l k = some (k + n) := by
  intro l
  induction l with
  | nil => intro n k _ _ hlen; simp at hlen
  | cons o rest ih =>
    intro n k hocc hfree hlen
    cases n with
    | zero =>
      simp only [List.getD_cons_zero] at hfree
      subst hfree
      simp [findFreeAux]
    | succ m =>
      have h0 := hocc 0 (by omega)
      simp only [List.getD_cons_zero] at h0
      obtain ⟨v, rfl⟩ := Option.isSome_iff_exists.mp h0
      have := ih m (k + 1) (fun j hj => by simpa using hocc (j + 1) (by omega))
        (by simpa using hfree) (by simpa using hlen)
      simp only [findFreeAux, this]
      congr 1
      omega

/-- `findFreeAux` on a fully occupied store. -/
theorem findFreeAux_none :
    ∀ (l : List (Option String)) (k : Nat),
      (∀ j, j < List.length l → (List.getD l j none).isSome = true) →
      findFreeAux l k = none := by
  intro l
  induction l with
  | nil => intro k _; rfl
  | cons o rest ih =>
    intro k hocc
    have h0 := hocc 0 (by simp)
    simp only [List.getD_cons_zero] at h0
    obtain ⟨v, rfl⟩ := Option.isSome_iff_exists.mp h0
    exact ih (k + 1) (fun j hj => by simpa using hocc (j + 1) (by simpa using hj))

/-- `findValAux` finds the first slot holding the value. -/
theorem findValAux_spec (v : String) :
    ∀ (l : List (Option String)) (n k : Nat),
      (∀ j, j < n → List.getD l j none ≠ some v) →
      List.getD l n none = some v → n < List.length l →
      findValAux v l k = some (k + n) := by
  intro l
  induction l with
  | nil => intro n k _ _ hlen; simp at hlen
  | cons o rest ih =>
    intro n k hmiss hval hlen
    cases n with
    | zero =>
      simp only [List.getD_cons_zero] at hval
      subst hval
      simp [findValAux]
    | succ m =>
      have h0 := hmiss 0 (by omega)
      simp only [List.getD_cons_zero] at h0
      have := ih m (k + 1) (fun j hj => by simpa using hmiss (j + 1) (by omega))
        (by simpa using hval) (by simpa using hlen)
      simp only [findValAux, if_neg h0, this]
      congr 1
      omega

/-- `findValAux` when no slot holds the value. -/
theorem findValAux_none (v : String) :
    ∀ (l : List (Option String)) (k : Nat),
      (∀ j, j < List.length l → List.getD l j none ≠ some v) →
      findValAux v l k = none := by
  intro l
  induction l with
  | nil => intro k _; rfl
  | cons o rest ih =>
    intro k hmiss
    have h0 := hmiss 0 (by simp)
    simp only [List.getD_cons_zero] at h0
    simp only [findValAux, if_neg h0]
    exact ih (k + 1) (fun j hj => by simpa using hmiss (j + 1) (by simpa using hj))

/-- `addValue` on a store whose lowest free slot is `i`. -/
theorem addValue_lowest (s : Store) (v : String) (i : Nat) (hv : validValue v)
    (hocc : ∀ j, j < i → (List.getD s j none).isSome = true)
    (hfree : List.getD s i none = none) (hi : i < List.length s) :
    addValue s v = (List.set s i (some v), .ok ("k" ++ Nat.repr i)) := by
  obtain ⟨hne, hlen⟩ := hv
  simp only [addValue, if_neg hne, if_neg (by omega : ¬ 128 < v.length), findFreeIndex,
    findFreeAux_spec s i 0 hocc hfree hi]
  simp

/-- `addValue` on a full store reports the capacity error and changes
nothing. -/
theorem addValue_full (s : Store) (v : String) (hv : validValue v)
    (hocc : ∀ j, j < List.length s → (List.getD s j none).isSome = true) :
    addValue s v = (s, .capacityExceeded) := by
  obtain ⟨hne, hlen⟩ := hv
  simp only [addValue, if_neg hne, if_neg (by omega : ¬ 128 < v.length), findFreeIndex,
    findFreeAux_none s 0 hocc]

/-- Adding at slot `n` extends an occupied prefix by one. -/
theorem prefixOcc_set (s : Store) (n : Nat) (v : String) (hp : prefixOcc s n)
    (hn : n < 100) : prefixOcc (List.set s n (some v)) (n + 1) := by
  obtain ⟨hlen, hocc, hfree⟩ := hp
  refine ⟨by simpa using hlen, ?_, ?_⟩
  · intro i hi
    by_cases hin : i = n
    · subst hin
      rw [getD_set_self _ _ _ _ (by omega)]
      rfl
    · rw [getD_set_ne _ _ _ _ _ (fun h => hin h.symm)]
      exact hocc i (by omega)
  · intro i hi hni
    rw [getD_set_ne _ _ _ _ _ (by omega)]
    exact hfree i hi (by omega)

/-- Iterated adds onto an occupied prefix: every add succeeds and the
prefix grows by one per value. -/
theorem addAll_ok :
    ∀ (vs : List String) (s : Store) (n : Nat), prefixOcc s n →
      n + List.length vs ≤ 100 → (∀ v ∈ vs, validValue v) →
      (∀ r ∈ (addAll s vs).2, ∃ key, r = AddResult.ok key) ∧
        prefixOcc (addAll s vs).1 (n + List.length vs) := by
  intro vs
  induction vs with
  | nil =>
    intro s n hp _ _
    constructor
    · intro r hr
      simp [addAll] at hr
    · simpa [addAll] using hp
  | cons v rest ih =>
    intro s n hp hle hval
    simp only [List.length_cons] at hle
    have hn : n < 100 := by omega
    have hstep := addValue_lowest s v n (hval v (by simp))
      hp.2.1 (hp.2.2 n hn (Nat.le_refl n)) (hp.1 ▸ hn)
    have hpres := prefixOcc_set s n v hp hn
    have hrec := ih (List.set s n (some v)) (n + 1) hpres (by omega)
      (fun w hw => hval w (by simp [hw]))
    constructor
    · intro r hr
      simp only [addAll, hstep] at hr
      rcases List.mem_cons.mp hr with h | h
      · exact ⟨_, h⟩
      · exact hrec.1 r h
    · have heq : n + List.length (v :: rest) = (n + 1) + List.length rest := by
        simp only [List.length_cons]
        omega
      rw [heq]
      simpa [addAll, hstep] using hrec.2

/- ==================== Claim C6 ==================== -/

/-- C6: the add operation always assigns the lowest unoccupied index in
[0,100): a general lowest-free-slot characterization; from the empty store
100 consecutive adds of valid values all succeed; a 101st valid add onto
the full store returns the capacity error and leaves the store unchanged;
and after deleting key `k3` out of an occupied prefix, the next valid add
assigns `k3` again. -/
theorem store_add_lowest_free :
    (∀ (s : Store) (v : String) (i : Nat), validValue v →
      (∀ j, j < i → (List.getD s j none).isSome = true) →
      List.getD s i none = none → i < List.length s →
      addValue s v = (List.set s i (some v), .ok ("k" ++ Nat.repr i))) ∧
    (∀ vs : List String, List.length vs = 100 → (∀ v ∈ vs, validValue v) →
      ∀ r ∈ (addAll emptyStore vs).2, ∃ key, r = AddResult.ok key) ∧
    (∀ (s : Store) (v : String), prefixOcc s 100 → validValue v →
      addValue s v = (s, .capacityExceeded)) ∧
    (∀ (s : Store) (v : String) (n : Nat), prefixOcc s n → 4 ≤ n → validValue v →
      addValue (List.set s 3 none) v
        = (List.set (List.set s 3 none) 3 (some v), .ok "k3")) := by
  have hempty : prefixOcc emptyStore 0 := by
    refine ⟨by simp [emptyStore], fun i hi => by omega, fun i hi _ => ?_⟩
    simp only [emptyStore, List.getD_eq_getElem?_getD, List.getElem?_replicate]
    split <;> rfl
  refine ⟨?_, ?_, ?_, ?_⟩
  · intro s v i hv hocc hfree hi
    exact addValue_lowest s v i hv hocc hfree hi
  · intro vs hlen hval
    have := addAll_ok vs emptyStore 0 hempty (by omega) hval
    exact this.1
  · intro s v hp hv
    exact addValue_full s v hv (fun j hj => hp.2.1 j (by rw [hp.1] at hj; omega))
  · intro s v n hp h4 hv
    have hk : ("k" ++ Nat.repr 3) = "k3" := by decide
    rw [← hk]
    refine addValue_lowest _ v 3 hv ?_ ?_ ?_
    · intro j hj
      rw [getD_set_ne _ _ _ _ _ (by omega)]
      exact hp.2.1 j (by omega)
    · exact getD_set_self _ _ _ _ (by rw [hp.1]; omega)
    · rw [List.length_set, hp.1]
      omega

/-- Witness for C6: a store with `k0..k3` occupied, `k3` deleted, then a
valid add reassigns `k3`. -/
theorem store_add_lowest_free_witness :
    addValue (List.set (List.replicate 4 (some "a") ++ List.replicate 96 none) 3 none) "b"
      = (List.set (List.set (List.replicate 4 (some "a") ++ List.replicate 96 none) 3 none)
          3 (some "b"), .ok "k3") :=
  store_add_lowest_free.2.2.2 (List.replicate 4 (some "a") ++ List.replicate 96 none)
    "b" 4
    (by refine ⟨by decide, ?_, ?_⟩ <;> decide)
    (by decide) (by constructor <;> decide)

/- ==================== Claim C9 ==================== -/

/-- C9: remove-by-value with a non-empty search value deletes exactly the
lowest-indexed occupied slot holding the value, returns that slot's key,
and leaves every other slot (higher-indexed duplicates included)
unchanged; when no occupied slot holds the value the store is unchanged
and not-found is reported. -/
theorem store_remove_by_value_spec :
    (∀ (s : Store) (v : String), v ≠ "" →
      (∀ j, j < List.length s → List.getD s j none ≠ some v) →
      removeByValue s v = (s, .notFound)) ∧
    (∀ (s : Store) (v : String) (i : Nat), v ≠ "" → i < List.length s →
      List.getD s i none = some v →
      (∀ j, j < i → List.getD s j none ≠ some v) →
      removeByValue s v = (List.set s i none, .removed ("k" ++ Nat.repr i)) ∧
        ∀ j, j ≠ i → List.getD (List.set s i none) j none = List.getD s j none) := by
  constructor
  · intro s v hv hmiss
    simp only [removeByValue, if_neg hv, findValAux_none v s 0 hmiss]
  · intro s v i hv hi hval hmiss
    constructor
    · simp only [removeByValue, if_neg hv, findValAux_spec v s i 0 hmiss hval hi]
      simp
    · intro j hj
      exact getD_set_ne _ _ _ _ _ (fun h => hj h.symm)

/-- Witness for C9: removing `"a"` from `[some "b", some "a", some "a"]`
deletes slot 1 only. -/
theorem store_remove_by_value_spec_witness :
    removeByValue [some "b", some "a", some "a"] "a"
      = (List.set [some "b", some "a", some "a"] 1 none, .removed ("k" ++ Nat.repr 1)) ∧
    ∀ j, j ≠ 1 →
      List.getD (List.set ([some "b", some "a", some "a"] : Store) 1 none) j none
        = List.getD ([some "b", some "a", some "a"] : Store) j none :=
  store_remove_by_value_spec.2 [some "b", some "a", some "a"] "a" 1
    (by decide) (by decide) (by decide) (by decide)

/- ==================== Claim C8 ==================== -/

/-- C8: a login request whose body parses to the correct password gets the
redirect to `/` with a `Set-Cookie` carrying the fresh session token and
the session becomes the newly created one; any other login request gets
the `/?error=1` redirect whose lines nowhere contain `Set-Cookie` and an
unchanged session; and a `POST /doupdate` whose cookie does not validate
is answered `401 Unauthorized` with no byte of the request body consumed. -/
theorem login_and_doupdate_auth :
    (∀ (cl : Int) (input : List Nat) (sess : Session) (tok : String) (now : Nat),
      0 < cl → cl ≤ 256 →
      loginPassword (List.take cl.toNat input) = some (strBytes ADMIN_PASSWORD) →
      handleLogin cl input sess tok now
        = (successLoginLines tok, createSession tok now, List.drop cl.toNat input) ∧
      "Location: /" ∈ successLoginLines tok ∧
      ("Set-Cookie: sessionId=" ++ tok ++ "; Path=/; HttpOnly; Max-Age=3600")
        ∈ successLoginLines tok) ∧
    (∀ (cl : Int) (input : List Nat) (sess : Session) (tok : String) (now : Nat),
      (cl ≤ 0 ∨ 256 < cl ∨
        loginPassword (List.take cl.toNat input) ≠ some (strBytes ADMIN_PASSWORD)) →
      (handleLogin cl input sess tok now).1 = errorRedirectLines ∧
      (handleLogin cl input sess tok now).2.1 = sess ∧
      ∀ l ∈ errorRedirectLines, listFind (strBytes "Set-Cookie") (strBytes l) = none) ∧
    (∀ (ota : List Nat → List String × List Nat) (sess : Session) (now : Nat)
      (sid : String) (input : List Nat),
      (isSessionValidM sess now sid).1 = false →
      postDoupdate ota sess now sid input
        = (unauthorizedLines, (isSessionValidM sess now sid).2, input) ∧
      unauthorizedLines.head? = some "HTTP/1.1 401 Unauthorized") := by
  have hnc : ∀ l ∈ errorRedirectLines, listFind (strBytes "Set-Cookie") (strBytes l) = none := by
    decide
  refine ⟨?_, ?_, ?_⟩
  · intro cl input sess tok now h1 h2 hpwd
    refine ⟨?_, by simp [successLoginLines], by simp [successLoginLines]⟩
    simp only [handleLogin, if_neg (by omega : ¬ (cl ≤ 0 ∨ 256 < cl)), hpwd]
    simp
  · intro cl input sess tok now hbad
    by_cases hr : cl ≤ 0 ∨ 256 < cl
    · refine ⟨?_, ?_, hnc⟩ <;> simp only [handleLogin, if_pos hr]
    · have hpw : loginPassword (List.take cl.toNat input) ≠ some (strBytes ADMIN_PASSWORD) := by
        rcases hbad with h | h | h
        · exact absurd (Or.inl h) hr
        · exact absurd (Or.inr h) hr
        · exact h
      rcases hcase : loginPassword (List.take cl.toNat input) with _ | pwd
      · refine ⟨?_, ?_, hnc⟩ <;> simp only [handleLogin, if_neg hr, hcase]
      · have hne : pwd ≠ strBytes ADMIN_PASSWORD := by
          intro hc
          exact hpw (by rw [hcase, hc])
        refine ⟨?_, ?_, hnc⟩ <;>
          simp only [handleLogin, if_neg hr, hcase, if_neg hne]
  · intro ota sess now sid input hfail
    simp only [postDoupdate, hfail]
    exact ⟨by simp, by decide⟩

/-- Witness for C8: a correct-password body `password=admin123` logs in. -/
theorem login_and_doupdate_auth_witness :
    handleLogin 17 (strBytes "password=admin123") ⟨"", 0, false⟩ "tok1" 42
      = (successLoginLines "tok1", createSession "tok1" 42,
         List.drop 17 (strBytes "password=admin123")) ∧
    "Location: /" ∈ successLoginLines "tok1" ∧
    ("Set-Cookie: sessionId=" ++ "tok1" ++ "; Path=/; HttpOnly; Max-Age=3600")
      ∈ successLoginLines "tok1" :=
  login_and_doupdate_auth.1 17 (strBytes "password=admin123") ⟨"", 0, false⟩ "tok1" 42
    (by decide) (by decide) (by decide)

theorem fileBytesClamped_bounds (len written i winLen L : Nat) :
    0 ≤ fileBytesClamped len written i winLen L ∧
      fileBytesClamped len written i winLen L ≤ (len : Int) := by
  simp only [fileBytesClamped]
  split <;> split <;> omega

theorem runOTA_writes_le :
    ∀ (chunks : List (List Nat)) (marker : List Nat) (written : Nat) (w : List Nat),
      ∀ out ∈ runOTA marker written w chunks,
        ∃ c ∈ chunks, List.length out ≤ List.length c := by
  intro chunks
  induction chunks with
  | nil => intro marker written w out hout; simp [runOTA] at hout
  | cons chunk rest ih =>
    intro marker written w out hout
    by_cases hc : chunk = []
    · simp [runOTA, hc] at hout
    · rcases hm : findMatch marker w chunk 0 with ⟨oi, w2⟩
      cases oi with
      | none =>
        simp only [runOTA, if_neg hc, hm] at hout
        rcases List.mem_cons.mp hout with rfl | hmem
        · exact ⟨out, List.mem_cons_self _ _, Nat.le_refl _⟩
        · obtain ⟨c, hcm, hle⟩ := ih marker (written + List.length chunk) w2 out hmem
          exact ⟨c, List.mem_cons_of_mem _ hcm, hle⟩
      | some i =>
        simp only [runOTA, if_neg hc, hm] at hout
        split at hout
        · rcases List.mem_singleton.mp hout with rfl
          refine ⟨chunk, List.mem_cons_self _ _, ?_⟩
          rw [List.length_take]
          exact Nat.min_le_right _ _
        · simp at hout

theorem windowMatches_concat (w : List Nat) (b : Nat) (hb : b ≠ 98) :
    windowMatches exMarker (w ++ [b]) = false := by
  by_contra hcon
  have h : windowMatches exMarker (w ++ [b]) = true := by
    cases hx : windowMatches exMarker (w ++ [b])
    · exact absurd hx hcon
    · rfl
  simp only [windowMatches, Bool.and_eq_true, decide_eq_true_eq, beq_iff_eq] at h
  obtain ⟨hlen, heq⟩ := h
  simp only [List.length_append, List.length_cons, List.length_nil] at hlen
  have h4 : exMarker.length = 5 := rfl
  rw [h4] at heq
  have hidx := congrArg (fun l => l[4]?) heq
  simp only [List.getElem?_drop] at hidx
  have hk : (w ++ [b]).length - 5 + 4 = w.length := by
    simp only [List.length_append, List.length_cons, List.length_nil]
    omega
  rw [hk, List.getElem?_concat_length] at hidx
  have : b = 98 := by
    have h98 : exMarker[4]? = some 98 := rfl
    rw [h98] at hidx
    exact Option.some_injective _ hidx
  exact hb this

theorem findMatch_no98 (chunk : List Nat) :
    ∀ (w : List Nat) (i : Nat), (∀ b ∈ chunk, b ≠ 98) →
      findMatch exMarker w chunk i = (none, List.foldl pushWindow w chunk) := by
  induction chunk with
  | nil => intro w i _; rfl
  | cons b rest ih =>
    intro w i hall
    have hb : b ≠ 98 := hall b (by simp)
    have hwm : windowMatches exMarker (pushWindow w b) = false := by
      simp only [pushWindow]
      exact windowMatches_concat _ b hb
    simp only [findMatch, hwm, Bool.false_eq_true, if_false]
    exact ih (pushWindow w b) (i + 1) (fun x hx => hall x (by simp [hx]))

theorem drop_replicate {α : Type} (a : α) :
    ∀ (m n : Nat), List.drop m (List.replicate n a) = List.replicate (n - m) a := by
  intro m
  induction m with
  | zero => intro n; simp
  | succ k ih =>
    intro n
    cases n with
    | zero => simp
    | succ j =>
      rw [List.replicate_succ, List.drop_succ_cons, ih j,
        Nat.succ_sub_succ_eq_sub]

theorem foldl_pushWindow (l : List Nat) :
    ∀ w : List Nat, List.length w ≤ 128 →
      List.foldl pushWindow w l
        = List.drop (List.length w + List.length l - 128) (w ++ l) := by
  induction l with
  | nil =>
    intro w hw
    simp only [List.foldl_nil, List.length_nil, List.append_nil, Nat.add_zero]
    rw [Nat.sub_eq_zero_of_le hw, List.drop_zero]
  | cons b rest ih =>
    intro w hw
    by_cases hfull : List.length w = 128
    · have hpw : pushWindow w b = List.drop 1 w ++ [b] := by
        unfold pushWindow WIN_SIZE
        rw [if_pos hfull]
      have hlen2 : List.length (pushWindow w b) = 128 := by
        rw [hpw]
        simp [hfull]
      have := ih (pushWindow w b) (by omega)
      rw [List.foldl_cons, this, hlen2, hpw]
      have hne : w ≠ [] := by
        intro hz
        rw [hz] at hfull
        simp at hfull
      have hstep : (List.drop 1 w ++ [b]) ++ rest = List.drop 1 (w ++ b :: rest) := by
        rw [List.append_assoc]
        rw [List.drop_append_of_le_length (by omega : 1 ≤ w.length)]
        rfl
      rw [hstep, List.drop_drop]
      have hidx : 1 + (128 + List.length rest - 128)
          = List.length w + List.length (b :: rest) - 128 := by
        simp only [List.length_cons]
        omega
      rw [hidx]
    · have hpw : pushWindow w b = w ++ [b] := by
        unfold pushWindow WIN_SIZE
        rw [if_neg hfull]
      have hlen2 : List.length (pushWindow w b) = w.length + 1 := by
        rw [hpw]
        simp
      have := ih (pushWindow w b) (by omega)
      rw [List.foldl_cons, this, hlen2, hpw, List.append_assoc,
        List.singleton_append]
      have hidx : List.length w + 1 + List.length rest - 128
          = List.length w + List.length (b :: rest) - 128 := by
        simp only [List.length_cons]
        omega
      rw [hidx]

theorem exChunk1_no98 : ∀ b ∈ exChunk1, b ≠ 98 := by
  intro b hb
  simp only [exChunk1, List.mem_append] at hb
  rcases hb with h | h
  · rw [List.eq_of_mem_replicate h]
    omega
  · simp only [List.mem_cons, List.not_mem_nil, or_false] at h
    rcases h with rfl | rfl | rfl | rfl <;> omega

theorem exChunk1_length : List.length exChunk1 = 1024 := by
  rw [exChunk1, List.length_append, List.length_replicate]
  decide

theorem window_after_chunk1 :
    List.foldl pushWindow [] exChunk1 = List.replicate 124 65 ++ [13, 10, 45, 45] := by
  rw [foldl_pushWindow exChunk1 [] (by simp)]
  simp only [List.length_nil, List.nil_append, exChunk1_length, Nat.zero_add]
  show List.drop 896 exChunk1 = _
  rw [exChunk1]
  rw [List.drop_append_of_le_length
    (by rw [List.length_replicate]; omega : 896 ≤ (List.replicate 1020 65).length)]
  rw [drop_replicate]

theorem window2_eq :
    pushWindow (List.replicate 124 65 ++ [13, 10, 45, 45]) 98
      = List.replicate 123 65 ++ [13, 10, 45, 45, 98] := by
  have hfull : List.length (List.replicate 124 65 ++ [13, 10, 45, 45]) = 128 := by
    simp
  unfold pushWindow WIN_SIZE
  rw [if_pos hfull]
  rw [show (124 : Nat) = 123 + 1 from rfl, List.replicate_succ]
  simp

theorem window2_matches :
    windowMatches exMarker (pushWindow (List.replicate 124 65 ++ [13, 10, 45, 45]) 98)
      = true := by
  rw [window2_eq]
  simp only [windowMatches]
  have hlen : List.length (List.replicate 123 65 ++ [13, 10, 45, 45, 98]) = 128 := by
    simp
  rw [hlen]
  have hdrop : List.drop (128 - List.length exMarker)
      (List.replicate 123 65 ++ [13, 10, 45, 45, 98]) = [13, 10, 45, 45, 98] := by
    show List.drop 123 _ = _
    rw [show (123 : Nat) = (List.replicate 123 (65 : Nat)).length by simp]
    exact List.drop_left _ _
  rw [hdrop]
  simp [exMarker]

theorem runOTA_split_example :
    runOTA exMarker 0 [] [exChunk1, exChunk2] = [exChunk1] := by
  have h1 : exChunk1 ≠ [] := by
    intro h
    have := congrArg List.length h
    rw [exChunk1_length] at this
    simp at this
  have h2 : exChunk2 ≠ [] := by
    simp [exChunk2]
  have hfm1 := findMatch_no98 exChunk1 [] 0 exChunk1_no98
  rw [window_after_chunk1] at hfm1
  have hfm2 : findMatch exMarker (List.replicate 124 65 ++ [13, 10, 45, 45]) exChunk2 0
      = (some 0, pushWindow (List.replicate 124 65 ++ [13, 10, 45, 45]) 98) := by
    show findMatch exMarker _ [98] 0 = _
    simp only [findMatch, window2_matches, if_pos]
  have hwlen : List.length (pushWindow (List.replicate 124 65 ++ [13, 10, 45, 45]) 98)
      = 128 := by
    rw [window2_eq, List.length_append, List.length_replicate]
    decide
  have hclamp : fileBytesClamped (List.length exChunk2) (0 + List.length exChunk1) 0
      (List.length (pushWindow (List.replicate 124 65 ++ [13, 10, 45, 45]) 98))
      (List.length exMarker) = 0 := by
    rw [exChunk1_length, hwlen]
    simp only [exChunk2, exMarker]
    decide
  simp only [runOTA, if_neg h1, hfm1, if_neg h2, hfm2, hclamp]
  norm_num

theorem listFind_skip65 :
    ∀ (n : Nat) (rest : List Nat),
      listFind exMarker (List.replicate n 65 ++ rest)
        = (listFind exMarker rest).map (· + n) := by
  intro n
  induction n with
  | zero =>
    intro rest
    simp only [List.replicate_zero, List.nil_append]
    cases listFind exMarker rest <;> simp
  | succ m ih =>
    intro rest
    rw [List.replicate_succ, List.cons_append]
    have hpre : isPrefixL exMarker (65 :: (List.replicate m 65 ++ rest)) = false := rfl
    simp only [listFind, hpre, Bool.false_eq_true, if_false, ih]
    cases listFind exMarker rest <;> simp
    omega

theorem listFind_split_example :
    listFind exMarker (exChunk1 ++ exChunk2) = some 1020 := by
  have hshape : exChunk1 ++ exChunk2 = List.replicate 1020 65 ++ [13, 10, 45, 45, 98] := by
    rw [exChunk1, exChunk2, List.append_assoc]
    rfl
  rw [hshape, listFind_skip65]
  have h0 : listFind exMarker [13, 10, 45, 45, 98] = some 0 := by decide
  rw [h0]
  rfl

/- ==================== Claim C10 ==================== -/

/-- C10: whenever the boundary marker matches inside a chunk of length
`len`, `fileBytesToWrite` is clamped into `[0, len]` before `Update.write`,
so no write is negative or exceeds the bytes present in the chunk buffer;
consequently every block the payload loop passes to `Update.write` is no
longer than the chunk it came from, for every stream and match position. -/
theorem ota_write_count_clamped :
    (∀ len written i winLen L : Nat,
      0 ≤ fileBytesClamped len written i winLen L ∧
        fileBytesClamped len written i winLen L ≤ (len : Int)) ∧
    (∀ (marker : List Nat) (written : Nat) (w : List Nat) (chunks : List (List Nat)),
      ∀ out ∈ runOTA marker written w chunks,
        ∃ c ∈ chunks, List.length out ≤ List.length c) :=
  ⟨fileBytesClamped_bounds,
   fun marker written w chunks => runOTA_writes_le chunks marker written w⟩

/-- Witness for C10 on a one-chunk stream with no marker. -/
theorem ota_write_count_clamped_witness :
    ∃ c ∈ [[1, 2, 3]], List.length [1, 2, 3] ≤ List.length c :=
  ota_write_count_clamped.2 [13, 10] 0 [] [[1, 2, 3]] [1, 2, 3] (by decide)

/- ==================== Claim C1 ==================== -/

/-- C1 fails on the code: on the stream whose first 1024-byte chunk ends
with the four leading bytes of the closing marker `"\r\n--b"` and whose
second chunk completes it, `handleOTAUpload` passes 1024 bytes to
`Update.write` while the reference whole-body extractor yields a
1020-byte payload: the marker is detected, but the counts differ. -/
theorem ota_split_chunk_miscount :
    ((runOTA exMarker 0 [] [exChunk1, exChunk2]).map List.length).sum = 1024 ∧
    (refPayload exMarker (exChunk1 ++ exChunk2)).map List.length = some 1020 := by
  constructor
  · rw [runOTA_split_example]
    simp [exChunk1_length]
  · have hlen : List.length (exChunk1 ++ exChunk2) = 1025 := by
      rw [List.length_append, exChunk1_length]
      rfl
    simp only [refPayload, listFind_split_example, Option.map_some']
    rw [List.length_take, hlen]
    norm_num

/- ==================== Claim C2 ==================== -/

/-- C2 fails on the code: on the same split-marker stream, the four
marker-start bytes `"\r\n--"` that close the first chunk are passed to
`Update.write` (the whole 1024-byte chunk is flushed) even though they are
part of the boundary marker occurrence that starts at stream offset 1020 —
bytes still inside the sliding window are not withheld from the writer. -/
theorem ota_window_bytes_flushed_unconfirmed :
    List.drop 1020 (List.flatten (runOTA exMarker 0 [] [exChunk1, exChunk2]))
      = [13, 10, 45, 45] ∧
    listFind exMarker (exChunk1 ++ exChunk2) = some 1020 := by
  constructor
  · rw [runOTA_split_example]
    simp only [List.flatten_cons, List.flatten_nil, List.append_nil]
    rw [exChunk1, List.drop_append_of_le_length
      (by rw [List.length_replicate] : 1020 ≤ (List.replicate 1020 65).length)]
    rw [drop_replicate]
    simp
  · exact listFind_split_example

set_option maxRecDepth 4000 in
theorem lastSunday_base :
    ∀ n, n < 400 → lastSundayActualOK (1970 + n) 3 ∧ lastSundayActualOK (1970 + n) 10 := by
  unfold lastSundayActualOK
  decide

theorem dayOfWeekFirst_periodic (y m : Nat) (hm : 3 ≤ m) (hm2 : m ≤ 10) :
    dayOfWeekFirst (y + 400) m = dayOfWeekFirst y m := by
  have ha : (14 - m) / 12 = 0 := by omega
  simp only [dayOfWeekFirst, ha, Nat.sub_zero, Nat.mul_zero, Nat.add_zero]
  omega

theorem refIsLeap_periodic (y : Nat) : refIsLeap (y + 400) = refIsLeap y := by
  simp only [refIsLeap]
  rw [decide_eq_decide]
  omega

theorem refDays_periodic (y m d : Nat) (hy : 1970 ≤ y) :
    refDays (y + 400) m d = refDays y m d + 146097 := by
  simp only [refDays, refLeapDays, refIsLeap_periodic]
  omega

theorem dowCivil_periodic (y m d : Nat) (hy : 1970 ≤ y) :
    dowCivil (y + 400) m d = dowCivil y m d := by
  simp only [dowCivil, refDays_periodic y m d hy]
  omega

theorem lastSundayF_periodic (y m : Nat) (hm : 3 ≤ m) (hm2 : m ≤ 10) :
    lastSundayF (y + 400) m = lastSundayF y m := by
  simp only [lastSundayF, dayOfWeekFirst_periodic y m hm hm2]

theorem lastSundayActualOK_shift (y m : Nat) (hy : 1970 ≤ y) (hm : 3 ≤ m)
    (hm2 : m ≤ 10) (h : lastSundayActualOK y m) : lastSundayActualOK (y + 400) m := by
  obtain ⟨h1, h2, h3, h4⟩ := h
  have hls := lastSundayF_periodic y m hm hm2
  have hdow : ∀ d, dowCivil (y + 400) m d = dowCivil y m d :=
    fun d => dowCivil_periodic y m d hy
  refine ⟨?_, ?_, ?_, ?_⟩
  · rw [hls, hdow]
    exact h1
  · rw [hls]
    exact h2
  · rw [hls]
    exact h3
  · intro d hd hlt
    rw [hdow]
    exact h4 d hd (by rwa [hls] at hlt)

theorem lastSunday_all :
    ∀ y, 1970 ≤ y → lastSundayActualOK y 3 ∧ lastSundayActualOK y 10 := by
  intro y
  induction y using Nat.strong_induction_on with
  | _ y ih =>
    intro hy
    by_cases hlt : y < 2370
    · have hb := lastSunday_base (y - 1970) (by omega)
      have heq : 1970 + (y - 1970) = y := by omega
      rwa [heq] at hb
    · have hz : y - 400 + 400 = y := by omega
      have hprev := ih (y - 400) (by omega) (by omega)
      constructor
      · have := lastSundayActualOK_shift (y - 400) 3 (by omega) (by omega) (by omega) hprev.1
        rwa [hz] at this
      · have := lastSundayActualOK_shift (y - 400) 10 (by omega) (by omega) (by omega) hprev.2
        rwa [hz] at this

/- ==================== Claim C4 ==================== -/

/-- C4: `isDST` is total on its embedded domain and returns false in
January, February, November, December; true in April through September; on
March days it is false strictly before the last-Sunday value and before
02:00 on that day, true from 02:00 on that day and on later March days;
symmetrically for October at 03:00; and for every year from 1970 on the
value `31 - ((dayOfWeekOfFirst + 30) mod 7)` is the actual last Sunday of
March and of October. -/
theorem isDST_rules :
    (∀ y d h, isDST y 1 d h = false ∧ isDST y 2 d h = false ∧
      isDST y 11 d h = false ∧ isDST y 12 d h = false) ∧
    (∀ y m d h, 4 ≤ m → m ≤ 9 → isDST y m d h = true) ∧
    (∀ y d h,
      (d < lastSundayF y 3 → isDST y 3 d h = false) ∧
      (d = lastSundayF y 3 → h < 2 → isDST y 3 d h = false) ∧
      (d = lastSundayF y 3 → 2 ≤ h → isDST y 3 d h = true) ∧
      (lastSundayF y 3 < d → isDST y 3 d h = true)) ∧
    (∀ y d h,
      (d < lastSundayF y 10 → isDST y 10 d h = true) ∧
      (d = lastSundayF y 10 → h < 3 → isDST y 10 d h = true) ∧
      (d = lastSundayF y 10 → 3 ≤ h → isDST y 10 d h = false) ∧
      (lastSundayF y 10 < d → isDST y 10 d h = false)) ∧
    (∀ y, 1970 ≤ y → lastSundayActualOK y 3 ∧ lastSundayActualOK y 10) := by
  refine ⟨?_, ?_, ?_, ?_, lastSunday_all⟩
  · intro y d h
    exact ⟨rfl, rfl, rfl, rfl⟩
  · intro y m d h h4 h9
    interval_cases m <;> rfl
  · intro y d h
    refine ⟨?_, ?_, ?_, ?_⟩
    · intro hlt
      simp [isDST, hlt]
    · intro heq hh
      subst heq
      simp [isDST, hh]
    · intro heq hh
      subst heq
      simp [isDST, Nat.not_lt.mpr hh]
    · intro hlt
      simp [isDST, hlt, Nat.lt_asymm hlt]
  · intro y d h
    refine ⟨?_, ?_, ?_, ?_⟩
    · intro hlt
      simp [isDST, hlt]
    · intro heq hh
      subst heq
      simp [isDST, hh]
    · intro heq hh
      subst heq
      simp [isDST, Nat.not_lt.mpr hh]
    · intro hlt
      simp [isDST, hlt, Nat.lt_asymm hlt]

/-- Witness for C4: in 2024 the formula's last Sundays (March 31 and
October 27) are the actual last Sundays. -/
theorem isDST_rules_witness :
    lastSundayActualOK 2024 3 ∧ lastSundayActualOK 2024 10 :=
  isDST_rules.2.2.2.2 2024 (by decide)
